import Mathlib

/-!
Shallow embedding of the todo-api repository: the todo/changelog data model
(models/Todo.js, models/Changelog.js) and the route handlers (routes/todos.js),
with sequential (one-request-at-a-time) execution.  Mongo documents become
records, the two collections become lists held in a `State`, and each Express
handler becomes a function `State → ... → Nat × State` returning the HTTP
status code and the post-state.
-/

namespace TodoApi

/-- A document of the `Todo` collection (todoSchema in models/Todo.js).
`id` models the Mongo `_id`; `created_at` is the schema's timestamp field. -/
structure Todo where
  id : Nat
  local_id : Option String
  title : String
  description : Option String
  completed : Bool
  priority : String
  tags : List String
  due_date : Option Nat
  dependencies : List Nat
  image : Option String
  created_at : Nat
deriving DecidableEq

/-- A document of the `Changelog` collection (changelogSchema). -/
structure ChangelogEntry where
  resourceId : Nat
  resourceType : String
  version : Int
  isDeleted : Bool
  createdAt : Nat
deriving DecidableEq

/-- The two persisted collections plus the id/time sources.  `clock` models
`Date.now`; `nextId` models Mongo `_id` generation. -/
structure State where
  todos : List Todo
  changelog : List ChangelogEntry
  nextId : Nat
  clock : Nat
deriving DecidableEq

def initState : State := ⟨[], [], 0, 0⟩

/-- Fold step keeping the record with the larger `version`. -/
def pickLater (acc : Option ChangelogEntry) (e : ChangelogEntry) : Option ChangelogEntry :=
  match acc with
  | none => some e
  | some b => if b.version < e.version then some e else some b

/-- Model of `Changelog.findOne().sort({ version: -1 })`: a record carrying the highest
`version`, or `none` on an empty collection (routes/todos.js line 11). -/
def lastRecord? (cl : List ChangelogEntry) : Option ChangelogEntry :=
  cl.foldl pickLater none

/-- Helper `addChangelog` (routes/todos.js lines 8-25): reads the latest record,
computes `curVersion = lastRecord?.version ?? -1`, and saves a new entry with
`version = curVersion + 1`, `resourceType = "todo"`. -/
def addChangelog (s : State) (resourceId : Nat) (isDeleted : Bool) : State :=
  let curVersion : Int := ((lastRecord? s.changelog).map (fun e => e.version)).getD (-1)
  let e : ChangelogEntry :=
    { resourceId := resourceId
      resourceType := "todo"
      version := curVersion + 1
      isDeleted := isDeleted
      createdAt := s.clock }
  { s with changelog := s.changelog ++ [e], clock := s.clock + 1 }

/-- One element of a POST body (`data` in the create loop). -/
structure CreateBody where
  local_id : Option String
  title : Option String
  description : Option String
  completed : Option Bool
  priority : Option String
  tags : Option (List String)
  due_date : Option Nat
  dependencies : Option (List Nat)
  image : Option String
deriving DecidableEq

/-- Leading/trailing-whitespace removal, the `trim: true` schema setter
(executable model of JavaScript String.prototype.trim). -/
def trimString (v : String) : String :=
  ⟨((v.data.dropWhile Char.isWhitespace).reverse.dropWhile Char.isWhitespace).reverse⟩

/-- JavaScript `x || d` for an optional string field (empty string is falsy). -/
def jsOrStr (o : Option String) (d : String) : String :=
  match o with
  | some v => if v = "" then d else v
  | none => d

/-- The document built by `new Todo({...})` in the create loop (routes/todos.js lines 71-81).
String fields with `trim: true` are stored trimmed by the schema setter. -/
def newTodo (s : State) (b : CreateBody) : Todo :=
  { id := s.nextId
    local_id := b.local_id
    title := trimString (b.title.getD "")
    description := b.description.map (fun v => trimString v)
    completed := b.completed.getD false
    priority := jsOrStr b.priority "medium"
    tags := b.tags.getD []
    due_date := b.due_date
    dependencies := b.dependencies.getD []
    image := b.image
    created_at := s.clock }

/-- Saving (`todo.save()`) a freshly built todo: schema validation rejects a
document whose required `title` is missing or trims to the empty string;
otherwise the document is appended to the collection. -/
def saveTodo (s : State) (b : CreateBody) : Option (Todo × State) :=
  if (newTodo s b).title = "" then none
  else some (newTodo s b,
    { s with todos := s.todos ++ [newTodo s b], nextId := s.nextId + 1, clock := s.clock + 1 })

/-- A POST body that passes schema validation. -/
def validBody (b : CreateBody) : Prop := trimString (b.title.getD "") ≠ ""

instance (b : CreateBody) : Decidable (validBody b) := by
  unfold validBody; infer_instance

/-- The `for (const data of todosData)` loop of the create handler
(routes/todos.js lines 70-89): save each todo, append one changelog entry per
saved todo, stop with status 400 at the first failure (earlier iterations
remain committed), status 201 when all succeed. -/
def postLoop : State → List CreateBody → Nat × State
  | s, [] => (201, s)
  | s, b :: rest =>
    match saveTodo s b with
    | none => (400, s)
    | some ts => postLoop (addChangelog ts.2 ts.1.id false) rest

/-- A POST request body: absent, a single object, or an array. -/
inductive CreateReq
  | missing
  | one (b : CreateBody)
  | many (bs : List CreateBody)
deriving DecidableEq

/-- The POST / handler (routes/todos.js lines 61-95): 400 on a missing body,
otherwise `Array.isArray(req.body) ? req.body : [req.body]` then the loop. -/
def postHandler (s : State) : CreateReq → Nat × State
  | .missing => (400, s)
  | .one b => postLoop s [b]
  | .many bs => postLoop s bs

/-- A route `:id` parameter: either a well-formed ObjectId (modelled as the
underlying `Nat`) or a string mongoose cannot cast. -/
inductive RawId
  | valid (id : Nat)
  | malformed (raw : String)
deriving DecidableEq

/-- Lookup `Todo.findById(req.params.id)`: throws a CastError (`.error`) on a
malformed id, otherwise the matching document if any. -/
def findById (todos : List Todo) : RawId → Except Unit (Option Todo)
  | .malformed _ => .error ()
  | .valid id => .ok (todos.find? (fun t => t.id == id))

/-- A PATCH request body (only `title`, `description`, `completed` are read). -/
structure PatchBody where
  title : Option String
  description : Option String
  completed : Option Bool
deriving DecidableEq

/-- Field updates of the PATCH handler (routes/todos.js lines 105-115):
`if (req.body.title)` / `if (req.body.description)` apply only truthy values
(the empty string is falsy and is skipped), while
`if (req.body.completed !== undefined)` applies any supplied boolean. -/
def applyPatch (t : Todo) (b : PatchBody) : Todo :=
  let t1 := match b.title with
    | some v => if v ≠ "" then { t with title := trimString v } else t
    | none => t
  let t2 := match b.description with
    | some v => if v ≠ "" then { t1 with description := some (trimString v) } else t1
    | none => t1
  match b.completed with
  | some c => { t2 with completed := c }
  | none => t2

/-- The PATCH /:id handler (routes/todos.js lines 98-124): CastError is caught
and mapped to 400, a missing todo gives 404; otherwise the fields are updated,
`todo.save()` revalidates (400 when the title became empty), and exactly one
changelog entry is appended with `isDeleted = false`. -/
def patchTodo (s : State) (rid : RawId) (b : PatchBody) : Nat × State :=
  match findById s.todos rid with
  | .error _ => (400, s)
  | .ok none => (404, s)
  | .ok (some t) =>
    let t1 := applyPatch t b
    if t1.title = "" then (400, s)
    else
      let s1 := { s with todos := s.todos.map (fun u => if u.id = t.id then t1 else u),
                         clock := s.clock + 1 }
      (200, addChangelog s1 t1.id false)

/-- The DELETE /:id handler (routes/todos.js lines 127-140): CastError is
caught and mapped to 500 (server error), a missing todo gives 404; otherwise
the document is removed and one changelog entry with `isDeleted = true` is
appended. -/
def deleteTodo (s : State) (rid : RawId) : Nat × State :=
  match findById s.todos rid with
  | .error _ => (500, s)
  | .ok none => (404, s)
  | .ok (some t) =>
    let s1 := { s with todos := s.todos.filter (fun u => u.id ≠ t.id) }
    (200, addChangelog s1 t.id true)

/-- Comparison used by a Mongo descending sort on an optional key: a missing
key sorts as null, below every present value; equal keys keep relative order. -/
def optGe (a b : Option Nat) : Bool :=
  match a, b with
  | none, none => true
  | some _, none => true
  | none, some _ => false
  | some x, some y => y ≤ x

/-- Stable insertion step for a descending sort. -/
def insertDesc (key : Todo → Option Nat) (x : Todo) : List Todo → List Todo
  | [] => [x]
  | y :: ys => if optGe (key x) (key y) then x :: y :: ys else y :: insertDesc key x ys

/-- Stable descending sort by an optional key. -/
def sortDescBy (key : Todo → Option Nat) (l : List Todo) : List Todo :=
  l.foldr (insertDesc key) []

/-- The sort key read by `.sort({ createdAt: -1 })` (routes/todos.js line 31):
the todo schema defines `created_at`, not `createdAt`, so this field is absent
on every stored todo document. -/
def createdAtField (_ : Todo) : Option Nat := none

/-- The GET / handler (routes/todos.js lines 28-36): optional `id` filter
(`ids.length ? { _id: { $in: ids } } : {}`), then the descending sort on the
absent `createdAt` key. -/
def getTodos (s : State) (ids : List Nat) : List Todo :=
  let filtered := if ids.isEmpty then s.todos else s.todos.filter (fun t => ids.contains t.id)
  sortDescBy createdAtField filtered

/-- The query `Changelog.find({ version: { $gt: lastSyncedVersion } })`
(routes/todos.js line 41). -/
def changesSince (s : State) (lastSyncedVersion : Int) : List ChangelogEntry :=
  s.changelog.filter (fun e => lastSyncedVersion < e.version)

/-- The GET /changelist/ handler (routes/todos.js lines 38-45):
`req.query.lastSyncedVersion || 0` defaults the watermark to 0. -/
def changelistHandler (s : State) (lastSyncedVersion : Option Int) : List ChangelogEntry :=
  changesSince s (lastSyncedVersion.getD 0)

/-- One inbound mutating request. -/
inductive Op
  | post (r : CreateReq)
  | patch (rid : RawId) (b : PatchBody)
  | del (rid : RawId)
deriving DecidableEq

/-- Execute one request against the state (response discarded). -/
def runOp (s : State) : Op → State
  | .post r => (postHandler s r).2
  | .patch rid b => (patchTodo s rid b).2
  | .del rid => (deleteTodo s rid).2

/-- Execute a sequence of requests one at a time. -/
def runOps (s : State) (ops : List Op) : State := ops.foldl runOp s

/-- The integer sequence `0, 1, ..., n-1`. -/
def intRange (n : Nat) : List Int := (List.range n).map (fun i => (Nat.cast i : Int))

/-- The changelog collection is in canonical shape: its versions, in insertion
order, are exactly `0, 1, ..., n-1`. -/
def canonical (cl : List ChangelogEntry) : Prop :=
  cl.map (fun e => e.version) = intRange cl.length

/-- Positional correspondence between changelog entries and todos: entry `i`
records the creation (`isDeleted = false`) of todo `i`. -/
def CorrL (cl : List ChangelogEntry) (ts : List Todo) : Prop :=
  cl.length = ts.length ∧
  ∀ i (h1 : i < cl.length) (h2 : i < ts.length),
    cl[i].resourceId = ts[i].id ∧ cl[i].isDeleted = false

/-- A well-formed POST body. -/
def bodyA : CreateBody :=
  { local_id := none, title := some "buy milk", description := some "from the store",
    completed := none, priority := none, tags := none, due_date := none,
    dependencies := none, image := none }

/-- A second well-formed POST body. -/
def bodyB : CreateBody :=
  { local_id := none, title := some "walk dog", description := none,
    completed := some true, priority := some "high", tags := some ["home"],
    due_date := some 7, dependencies := none, image := none }

/-- A POST body missing the required `title`. -/
def bodyBad : CreateBody :=
  { local_id := none, title := none, description := some "missing title",
    completed := none, priority := none, tags := none, due_date := none,
    dependencies := none, image := none }

/-- The store after one successful create on a fresh database. -/
def oneCreateState : State := (postHandler initState (.one bodyA)).2

/-- The store after a batch create of two todos on a fresh database. -/
def twoTodoState : State := (postHandler initState (.many [bodyA, bodyB])).2

lemma addChangelog_changelog (s : State) (rid : Nat) (d : Bool) :
    (addChangelog s rid d).changelog = s.changelog ++
      [{ resourceId := rid, resourceType := "todo",
         version := ((lastRecord? s.changelog).map (fun e => e.version)).getD (-1) + 1,
         isDeleted := d, createdAt := s.clock }] := rfl

lemma addChangelog_todos (s : State) (rid : Nat) (d : Bool) :
    (addChangelog s rid d).todos = s.todos := rfl

lemma foldl_pickLater_spec (cl : List ChangelogEntry) (b : ChangelogEntry) :
    ∃ r, cl.foldl pickLater (some b) = some r ∧ (r = b ∨ r ∈ cl) ∧
      b.version ≤ r.version ∧ ∀ e ∈ cl, e.version ≤ r.version := by
  induction cl generalizing b with
  | nil => exact ⟨b, rfl, Or.inl rfl, le_refl _, by simp⟩
  | cons e cl ih =>
    rw [List.foldl_cons]
    by_cases h : b.version < e.version
    · rw [show pickLater (some b) e = some e by simp [pickLater, h]]
      obtain ⟨r, hr, hmem, hle, hub⟩ := ih e
      refine ⟨r, hr, ?_, le_of_lt (lt_of_lt_of_le h hle), ?_⟩
      · rcases hmem with rfl | hm
        · exact Or.inr (List.mem_cons_self _ _)
        · exact Or.inr (List.mem_cons_of_mem _ hm)
      · intro x hx
        rcases List.mem_cons.mp hx with rfl | hx
        · exact hle
        · exact hub x hx
    · rw [show pickLater (some b) e = some b by simp [pickLater, h]]
      obtain ⟨r, hr, hmem, hle, hub⟩ := ih b
      refine ⟨r, hr, ?_, hle, ?_⟩
      · rcases hmem with rfl | hm
        · exact Or.inl rfl
        · exact Or.inr (List.mem_cons_of_mem _ hm)
      · intro x hx
        rcases List.mem_cons.mp hx with rfl | hx
        · exact le_trans (le_of_not_lt h) hle
        · exact hub x hx

lemma lastRecord?_spec (cl : List ChangelogEntry) :
    (cl = [] ∧ lastRecord? cl = none) ∨
    ∃ r, lastRecord? cl = some r ∧ r ∈ cl ∧ ∀ e ∈ cl, e.version ≤ r.version := by
  cases cl with
  | nil => exact Or.inl ⟨rfl, rfl⟩
  | cons e cl =>
    right
    obtain ⟨r, hr, hmem, hle, hub⟩ := foldl_pickLater_spec cl e
    refine ⟨r, hr, ?_, ?_⟩
    · rcases hmem with rfl | hm
      · exact List.mem_cons_self _ _
      · exact List.mem_cons_of_mem _ hm
    · intro x hx
      rcases List.mem_cons.mp hx with rfl | hx
      · exact hle
      · exact hub x hx

lemma intRange_succ (n : Nat) : intRange (n + 1) = intRange n ++ [(n : Int)] := by
  simp [intRange, List.range_succ]

lemma canonical_nil : canonical [] := rfl

lemma intRange_nodup (n : Nat) : (intRange n).Nodup := by
  unfold intRange
  refine List.Nodup.map ?_ (List.nodup_range n)
  intro a b hab
  have hab2 : (a : Int) = (b : Int) := hab
  exact_mod_cast hab2

lemma intRange_pairwise_lt (n : Nat) : (intRange n).Pairwise (· < ·) := by
  unfold intRange
  refine List.Pairwise.map _ ?_ (List.pairwise_lt_range n)
  intro a b hab
  show (a : Int) < (b : Int)
  exact_mod_cast hab

lemma nextVersion_of_canonical {cl : List ChangelogEntry} (h : canonical cl) :
    ((lastRecord? cl).map (fun e => e.version)).getD (-1) = (cl.length : Int) - 1 := by
  rcases lastRecord?_spec cl with ⟨hnil, hlr⟩ | ⟨r, hlr, hmem, hub⟩
  · subst hnil; simp [hlr]
  · have hne : cl ≠ [] := by rintro rfl; simp at hmem
    have hlen : 0 < cl.length := List.length_pos.mpr hne
    have hv : r.version ∈ cl.map (fun e => e.version) := List.mem_map.mpr ⟨r, hmem, rfl⟩
    rw [h] at hv
    simp only [intRange, List.mem_map, List.mem_range] at hv
    obtain ⟨i, hi, hiv⟩ := hv
    have hiv2 : (i : Int) = r.version := hiv
    have hub2 : ((cl.length : Int) - 1) ≤ r.version := by
      have hmem2 : (Int.ofNat (cl.length - 1)) ∈ cl.map (fun e => e.version) := by
        rw [h]
        refine List.mem_map.mpr ⟨cl.length - 1, List.mem_range.mpr (by omega), rfl⟩
      obtain ⟨e0, he0, he0v⟩ := List.mem_map.mp hmem2
      have he0v2 : e0.version = Int.ofNat (cl.length - 1) := he0v
      have hle0 := hub e0 he0
      rw [Int.ofNat_eq_natCast] at he0v2
      omega
    simp only [hlr, Option.map_some', Option.getD_some]
    omega

lemma canonical_addChangelog {s : State} (h : canonical s.changelog) (rid : Nat) (d : Bool) :
    canonical (addChangelog s rid d).changelog := by
  have hnext := nextVersion_of_canonical h
  unfold canonical at h ⊢
  rw [addChangelog_changelog]
  simp only [List.map_append, List.map_cons, List.map_nil, List.length_append,
    List.length_cons, List.length_nil]
  rw [hnext, h, intRange_succ]
  congr 2
  omega

lemma saveTodo_changelog {s : State} {b : CreateBody} {t : Todo} {s1 : State}
    (h : saveTodo s b = some (t, s1)) : s1.changelog = s.changelog := by
  unfold saveTodo at h
  split at h
  · simp at h
  · simp only [Option.some.injEq, Prod.mk.injEq] at h
    rw [← h.2]

lemma canonical_postLoop (bs : List CreateBody) (s : State) (h : canonical s.changelog) :
    canonical (postLoop s bs).2.changelog := by
  induction bs generalizing s with
  | nil => simpa [postLoop] using h
  | cons b rest ih =>
    rw [postLoop]
    cases hsv : saveTodo s b with
    | none => simpa using h
    | some ts =>
      obtain ⟨t, s1⟩ := ts
      simp only
      apply ih
      have hcl : s1.changelog = s.changelog := saveTodo_changelog hsv
      exact canonical_addChangelog (s := s1) (hcl ▸ h) t.id false

lemma canonical_patchTodo (s : State) (rid : RawId) (b : PatchBody)
    (h : canonical s.changelog) : canonical (patchTodo s rid b).2.changelog := by
  unfold patchTodo
  cases rid with
  | malformed raw => simpa [findById] using h
  | valid id =>
    simp only [findById]
    cases hf : s.todos.find? (fun t => t.id == id) with
    | none => simpa using h
    | some t =>
      simp only
      split
      · simpa using h
      · refine canonical_addChangelog ?_ _ _
        exact h

lemma canonical_deleteTodo (s : State) (rid : RawId) (h : canonical s.changelog) :
    canonical (deleteTodo s rid).2.changelog := by
  unfold deleteTodo
  cases rid with
  | malformed raw => simpa [findById] using h
  | valid id =>
    simp only [findById]
    cases hf : s.todos.find? (fun t => t.id == id) with
    | none => simpa using h
    | some t =>
      simp only
      refine canonical_addChangelog ?_ _ _
      exact h

lemma canonical_runOp (s : State) (op : Op) (h : canonical s.changelog) :
    canonical (runOp s op).changelog := by
  cases op with
  | post r =>
    cases r with
    | missing => simpa [runOp, postHandler] using h
    | one b => exact canonical_postLoop [b] s h
    | many bs => exact canonical_postLoop bs s h
  | patch rid b => exact canonical_patchTodo s rid b h
  | del rid => exact canonical_deleteTodo s rid h

lemma canonical_runOps (ops : List Op) (s : State) (h : canonical s.changelog) :
    canonical (runOps s ops).changelog := by
  induction ops generalizing s with
  | nil => simpa [runOps] using h
  | cons op rest ih =>
    show canonical (runOps (runOp s op) rest).changelog
    exact ih _ (canonical_runOp s op h)

/-- Claim C1: over any sequence of create, update and delete requests executed
one at a time from a fresh database, the versions of all changelog entries
ever written are pairwise distinct and form the strictly increasing sequence
0, 1, 2, ... (the changelog is append-only, so the entries present are exactly
the entries ever written). -/
theorem changelog_versions_strictly_increasing (ops : List Op) :
    ((runOps initState ops).changelog.map (fun e => e.version)).Nodup ∧
    ((runOps initState ops).changelog.map (fun e => e.version)).Pairwise (· < ·) ∧
    (runOps initState ops).changelog.map (fun e => e.version) =
      intRange (runOps initState ops).changelog.length := by
  have h := canonical_runOps ops initState canonical_nil
  refine ⟨?_, ?_, h⟩
  · rw [h]; exact intRange_nodup _
  · rw [h]; exact intRange_pairwise_lt _

/-- Claim C2: the version assigned to a newly appended changelog entry equals
one greater than the highest version currently present in the changelog store,
or 0 if the store is empty; the entry is appended at the end and nothing else
changes in the collection. -/
theorem addChangelog_version_spec (s : State) (rid : Nat) (d : Bool) :
    ∃ e, (addChangelog s rid d).changelog = s.changelog ++ [e] ∧
      ((s.changelog = [] ∧ e.version = 0) ∨
        ∃ m ∈ s.changelog, (∀ e2 ∈ s.changelog, e2.version ≤ m.version) ∧
          e.version = m.version + 1) := by
  refine ⟨_, addChangelog_changelog s rid d, ?_⟩
  rcases lastRecord?_spec s.changelog with ⟨hnil, hlr⟩ | ⟨r, hlr, hmem, hub⟩
  · exact Or.inl ⟨hnil, by simp [hlr]⟩
  · exact Or.inr ⟨r, hmem, hub, by simp [hlr]⟩

/-- Claim C3 counterexample: after one create on a fresh store the single
changelog entry has version 0, and `changesSince 0` — also what the handler
computes when no watermark is supplied — returns the empty sequence, not that
entry (so the default does not return the full history). -/
theorem changesSince_default_misses_first_entry :
    oneCreateState.changelog.length = 1 ∧
    changelistHandler oneCreateState none = [] ∧
    changesSince oneCreateState 0 = [] ∧
    changesSince oneCreateState 0 ≠ oneCreateState.changelog := by decide

/-- Claim C3 (amended): `changesSince v` returns exactly the entries with
version strictly greater than `v`; a missing watermark defaults to 0, which
excludes the version-0 entry instead of returning the full history; on a
fresh store `changesSince 0` is empty, and after one create `changesSince 0`
is empty as well, because that one entry carries version 0. -/
theorem changesSince_spec (s : State) (v : Int) :
    (∀ e, e ∈ changesSince s v ↔ e ∈ s.changelog ∧ v < e.version) ∧
    changelistHandler s none = changesSince s 0 ∧
    changesSince initState 0 = [] ∧
    changesSince oneCreateState 0 = [] := by
  refine ⟨?_, rfl, rfl, by decide⟩
  intro e
  unfold changesSince
  rw [List.mem_filter]
  simp

/-- Claim C9 counterexample: a DELETE with a malformed identifier is answered
with HTTP 500 — a server error, not a client (4xx) error. -/
theorem delete_malformed_is_server_error :
    (deleteTodo initState (.malformed "invalid-id-format")).1 = 500 ∧
    ¬ (400 ≤ (deleteTodo initState (.malformed "invalid-id-format")).1 ∧
       (deleteTodo initState (.malformed "invalid-id-format")).1 < 500) := by decide

/-- Claim C9 (amended): a PATCH with a malformed identifier is rejected with
the client error 400, but a DELETE with a malformed identifier is rejected
with the server error 500; neither request mutates the stores. -/
theorem malformed_id_status (s : State) (raw : String) (b : PatchBody) :
    (patchTodo s (.malformed raw) b).1 = 400 ∧ (patchTodo s (.malformed raw) b).2 = s ∧
    (deleteTodo s (.malformed raw)).1 = 500 ∧ (deleteTodo s (.malformed raw)).2 = s :=
  ⟨rfl, rfl, rfl, rfl⟩

lemma find?_some_of_exists {l : List Todo} {id : Nat} (h : ∃ t ∈ l, t.id = id) :
    ∃ t, l.find? (fun u => u.id == id) = some t ∧ t.id = id := by
  obtain ⟨t, htl, hid⟩ := h
  have hs : (l.find? (fun u => u.id == id)).isSome :=
    List.find?_isSome.mpr ⟨t, htl, by simp [hid]⟩
  obtain ⟨u, hu⟩ := Option.isSome_iff_exists.mp hs
  exact ⟨u, hu, by simpa using List.find?_some hu⟩

/-- Claim C5: deleting an existing todo returns 200, removes it from the todo
store, and appends exactly one changelog entry, which has `isDeleted = true`;
deleting a nonexistent id returns 404 (NotFound) and leaves the state — in
particular the changelog store — unchanged. -/
theorem delete_spec (s : State) (id : Nat) :
    ((∃ t ∈ s.todos, t.id = id) →
      (deleteTodo s (.valid id)).1 = 200 ∧
      (∀ u ∈ (deleteTodo s (.valid id)).2.todos, u.id ≠ id) ∧
      ∃ e, (deleteTodo s (.valid id)).2.changelog = s.changelog ++ [e] ∧
        e.isDeleted = true) ∧
    ((∀ t ∈ s.todos, t.id ≠ id) →
      (deleteTodo s (.valid id)).1 = 404 ∧ (deleteTodo s (.valid id)).2 = s) := by
  constructor
  · intro hex
    obtain ⟨t, hf, htid⟩ := find?_some_of_exists hex
    refine ⟨by simp [deleteTodo, findById, hf], ?_, ?_⟩
    · intro u hu
      simp only [deleteTodo, findById, hf] at hu
      rw [addChangelog_todos] at hu
      have hmem := List.mem_filter.mp hu
      simpa [htid] using hmem.2
    · simp only [deleteTodo, findById, hf]
      refine ⟨_, addChangelog_changelog _ _ _, ?_⟩
      rfl
  · intro hnone
    have hf : s.todos.find? (fun u => u.id == id) = none := by
      rw [List.find?_eq_none]
      intro x hx
      simpa using hnone x hx
    exact ⟨by simp [deleteTodo, findById, hf], by simp [deleteTodo, findById, hf]⟩

/-- Witness for the delete claim at a concrete store: deleting the only todo
(id 0) succeeds with 200; deleting the absent id 5 gives 404 and an unchanged
state. -/
theorem delete_spec_witness :
    (∃ t ∈ oneCreateState.todos, t.id = 0) ∧
    (deleteTodo oneCreateState (.valid 0)).1 = 200 ∧
    (∀ t ∈ oneCreateState.todos, t.id ≠ 5) ∧
    (deleteTodo oneCreateState (.valid 5)).1 = 404 ∧
    (deleteTodo oneCreateState (.valid 5)).2 = oneCreateState := by
  refine ⟨by decide, ((delete_spec oneCreateState 0).1 (by decide)).1, by decide, ?_, ?_⟩
  · exact ((delete_spec oneCreateState 5).2 (by decide)).1
  · exact ((delete_spec oneCreateState 5).2 (by decide)).2

/-- Claim C6: every PATCH request that succeeds (status 200 — an update of an
existing todo, whatever subset of title/description/completed it supplies)
appends exactly one changelog entry, and that entry has `isDeleted = false`. -/
theorem patch_appends_one_entry (s : State) (rid : RawId) (b : PatchBody)
    (h : (patchTodo s rid b).1 = 200) :
    ∃ e, (patchTodo s rid b).2.changelog = s.changelog ++ [e] ∧ e.isDeleted = false := by
  cases rid with
  | malformed raw => exact absurd h (by simp [patchTodo, findById])
  | valid id =>
    cases hf : s.todos.find? (fun t => t.id == id) with
    | none => exact absurd h (by simp [patchTodo, findById, hf])
    | some t =>
      by_cases hval : (applyPatch t b).title = ""
      · exact absurd h (by simp [patchTodo, findById, hf, hval])
      · have h2 : (patchTodo s (.valid id) b).2
            = addChangelog { s with
                todos := s.todos.map (fun u => if u.id = t.id then applyPatch t b else u),
                clock := s.clock + 1 } (applyPatch t b).id false := by
          simp [patchTodo, findById, hf, hval]
        rw [h2, addChangelog_changelog]
        exact ⟨_, rfl, rfl⟩

/-- Witness for the patch claim: a successful three-field PATCH on a concrete
store appends one non-tombstone changelog entry. -/
theorem patch_appends_one_entry_witness :
    (patchTodo oneCreateState (.valid 0) ⟨some "new title", some "new desc", some true⟩).1
      = 200 ∧
    ∃ e,
      (patchTodo oneCreateState (.valid 0)
          ⟨some "new title", some "new desc", some true⟩).2.changelog
        = oneCreateState.changelog ++ [e] ∧ e.isDeleted = false :=
  ⟨by decide, patch_appends_one_entry _ _ _ (by decide)⟩

/-- Claim C7 (code bug at the ordering): GET /todos does filter to the
requested id set, but its `createdAt: -1` sort key is a field the todo schema
never writes (the schema field is `created_at`), so on a store holding todo 0
(created at time 0) and todo 1 (created at time 2) the route returns the
older todo first — insertion order, not newest-created-first. -/
theorem list_todos_order_bug :
    (getTodos twoTodoState []).map (fun t => t.id) = [0, 1] ∧
    (getTodos twoTodoState []).map (fun t => t.created_at) = [0, 2] ∧
    ¬ ((getTodos twoTodoState []).map (fun t => t.created_at)).Sorted (· ≥ ·) ∧
    (getTodos twoTodoState [0]).map (fun t => t.id) = [0] ∧
    (getTodos twoTodoState [0, 1]).map (fun t => t.id) = [0, 1] := by decide

lemma find?_map_update {l : List Todo} {id : Nat} {t t1 : Todo}
    (h : l.find? (fun u => u.id == id) = some t) (hid : t1.id = t.id) :
    (l.map (fun u => if u.id = t.id then t1 else u)).find? (fun u => u.id == id)
      = some t1 := by
  have htid : t.id = id := by simpa using List.find?_some h
  induction l with
  | nil => simp at h
  | cons a l ih =>
    by_cases ha : a.id = id
    · rw [List.find?_cons_of_pos _ (by simp [ha])] at h
      obtain rfl : a = t := by simpa using h
      have hstep : List.map (fun u => if u.id = a.id then t1 else u) (a :: l)
          = t1 :: List.map (fun u => if u.id = a.id then t1 else u) l := by
        simp
      rw [hstep]
      exact List.find?_cons_of_pos _ (by simp [hid, htid])
    · rw [List.find?_cons_of_neg _ (by simp [ha])] at h
      have hne : a.id ≠ t.id := by rw [htid]; exact ha
      have hstep : List.map (fun u => if u.id = t.id then t1 else u) (a :: l)
          = a :: List.map (fun u => if u.id = t.id then t1 else u) l := by
        simp [hne]
      rw [hstep, List.find?_cons_of_neg _ (by simp [ha])]
      exact ih h

/-- Claim C10: in a PATCH on an existing todo, a supplied falsy (empty-string)
title or description is silently ignored — the stored fields keep their
previous values and the request still succeeds with 200 — while a supplied
`completed` value is applied whenever present, so `completed = false` does
take effect. -/
theorem patch_falsy_fields_ignored (s : State) (id : Nat) (t : Todo)
    (ht : s.todos.find? (fun u => u.id == id) = some t) (htitle : t.title ≠ "") (c : Bool) :
    (patchTodo s (.valid id) ⟨some "", some "", some c⟩).1 = 200 ∧
    (patchTodo s (.valid id) ⟨some "", some "", some c⟩).2.todos.find?
        (fun u => u.id == id)
      = some { t with completed := c } := by
  have happ : applyPatch t ⟨some "", some "", some c⟩ = { t with completed := c } := by
    simp [applyPatch]
  have hval : (applyPatch t ⟨some "", some "", some c⟩).title ≠ "" := by
    rw [happ]; exact htitle
  constructor
  · simp [patchTodo, findById, ht, hval]
  · simp only [patchTodo, findById, ht, if_neg hval]
    rw [addChangelog_todos, happ]
    exact find?_map_update ht rfl

/-- Witness for the falsy-patch claim: on the concrete one-todo store, a PATCH
supplying empty title, empty description and `completed = false` succeeds and
only flips `completed`. -/
theorem patch_falsy_fields_ignored_witness :
    oneCreateState.todos.find? (fun u => u.id == 0) = some (newTodo initState bodyA) ∧
    (newTodo initState bodyA).title ≠ "" ∧
    (patchTodo oneCreateState (.valid 0) ⟨some "", some "", some false⟩).1 = 200 ∧
    (patchTodo oneCreateState (.valid 0) ⟨some "", some "", some false⟩).2.todos.find?
        (fun u => u.id == 0)
      = some { newTodo initState bodyA with completed := false } := by
  refine ⟨by decide, by decide, ?_, ?_⟩
  · exact (patch_falsy_fields_ignored oneCreateState 0 (newTodo initState bodyA)
      (by decide) (by decide) false).1
  · exact (patch_falsy_fields_ignored oneCreateState 0 (newTodo initState bodyA)
      (by decide) (by decide) false).2

lemma postLoop_nil (s : State) : postLoop s [] = (201, s) := rfl

lemma saveTodo_of_valid (s : State) (b : CreateBody) (h : validBody b) :
    saveTodo s b = some (newTodo s b,
      { s with todos := s.todos ++ [newTodo s b], nextId := s.nextId + 1,
               clock := s.clock + 1 }) := by
  have ht : (newTodo s b).title ≠ "" := h
  simp [saveTodo, ht]

lemma saveTodo_of_invalid (s : State) (b : CreateBody) (h : ¬ validBody b) :
    saveTodo s b = none := by
  have ht : (newTodo s b).title = "" := not_ne_iff.mp h
  simp [saveTodo, ht]

lemma saveTodo_some {s : State} {b : CreateBody} {t : Todo} {s1 : State}
    (h : saveTodo s b = some (t, s1)) :
    t = newTodo s b ∧
      s1 = { s with todos := s.todos ++ [newTodo s b], nextId := s.nextId + 1,
                    clock := s.clock + 1 } := by
  unfold saveTodo at h
  split at h
  · simp at h
  · simp only [Option.some.injEq, Prod.mk.injEq] at h
    exact ⟨h.1.symm, h.2.symm⟩

lemma postLoop_cons_valid (s : State) (b : CreateBody) (bs : List CreateBody)
    (hb : validBody b) :
    postLoop s (b :: bs) = postLoop (addChangelog { s with
      todos := s.todos ++ [newTodo s b], nextId := s.nextId + 1, clock := s.clock + 1 }
      (newTodo s b).id false) bs := by
  rw [postLoop, saveTodo_of_valid s b hb]

lemma postLoop_cons_invalid (s : State) (b : CreateBody) (bs : List CreateBody)
    (hb : ¬ validBody b) : postLoop s (b :: bs) = (400, s) := by
  rw [postLoop, saveTodo_of_invalid s b hb]

lemma postLoop_valid (bs : List CreateBody) (s : State) (h : ∀ b ∈ bs, validBody b) :
    (postLoop s bs).1 = 201 ∧
    (postLoop s bs).2.todos.length = s.todos.length + bs.length ∧
    (postLoop s bs).2.changelog.length = s.changelog.length + bs.length := by
  induction bs generalizing s with
  | nil => simp [postLoop_nil]
  | cons b rest ih =>
    have hb : validBody b := h b (List.mem_cons_self _ _)
    rw [postLoop_cons_valid s b rest hb]
    obtain ⟨h1, h2, h3⟩ := ih _ (fun x hx => h x (List.mem_cons_of_mem _ hx))
    refine ⟨h1, ?_, ?_⟩
    · rw [h2, addChangelog_todos]
      simp only [List.length_append, List.length_cons, List.length_nil]
      omega
    · rw [h3, addChangelog_changelog]
      simp only [List.length_append, List.length_cons, List.length_nil]
      omega

lemma corrL_nil : CorrL [] [] := ⟨rfl, fun i h1 _ => absurd h1 (by simp)⟩

lemma corrL_append {cl : List ChangelogEntry} {ts : List Todo} (h : CorrL cl ts)
    {e : ChangelogEntry} {t : Todo} (hid : e.resourceId = t.id)
    (hd : e.isDeleted = false) : CorrL (cl ++ [e]) (ts ++ [t]) := by
  obtain ⟨hlen, hcorr⟩ := h
  refine ⟨by simp [hlen], ?_⟩
  intro i h1 h2
  simp only [List.length_append, List.length_cons, List.length_nil] at h1 h2
  by_cases hi : i < cl.length
  · have hi2 : i < ts.length := hlen ▸ hi
    rw [List.getElem_append_left hi, List.getElem_append_left hi2]
    exact hcorr i hi hi2
  · have hi1 : i = cl.length := by omega
    have hi2 : i = ts.length := by omega
    rw [List.getElem_concat_length cl e i hi1, List.getElem_concat_length ts t i hi2]
    exact ⟨hid, hd⟩

lemma corrL_postLoop (bs : List CreateBody) (s : State)
    (h : CorrL s.changelog s.todos) :
    CorrL (postLoop s bs).2.changelog (postLoop s bs).2.todos := by
  induction bs generalizing s with
  | nil => simpa [postLoop_nil] using h
  | cons b rest ih =>
    rw [postLoop]
    cases hsv : saveTodo s b with
    | none => simpa using h
    | some ts =>
      obtain ⟨t, s1⟩ := ts
      simp only
      apply ih
      obtain ⟨rfl, rfl⟩ := saveTodo_some hsv
      rw [addChangelog_changelog, addChangelog_todos]
      exact corrL_append h rfl rfl

lemma postLoop_eq_singles (bs : List CreateBody) (s : State)
    (h : ∀ b ∈ bs, validBody b) :
    runOps s (bs.map (fun b => Op.post (.one b))) = (postLoop s bs).2 := by
  induction bs generalizing s with
  | nil => rfl
  | cons b rest ih =>
    have hb : validBody b := h b (List.mem_cons_self _ _)
    have hone : runOp s (Op.post (.one b)) = (postLoop s [b]).2 := rfl
    show runOps (runOp s (Op.post (.one b))) (rest.map (fun b => Op.post (.one b)))
      = (postLoop s (b :: rest)).2
    rw [hone, postLoop_cons_valid s b [] hb, postLoop_cons_valid s b rest hb,
      postLoop_nil]
    exact ih _ (fun x hx => h x (List.mem_cons_of_mem _ hx))

/-- Claim C4: creating N valid todos from an empty store — one at a time or as
a single POST whose body is the array — stores exactly N todos and writes
exactly N changelog entries, whose versions are 0..N-1 in input order, each
with `isDeleted = false` and `resourceId` equal to the id of the
corresponding stored todo. -/
theorem batch_create_spec (bodies : List CreateBody) (h : ∀ b ∈ bodies, validBody b) :
    (postHandler initState (.many bodies)).1 = 201 ∧
    (postHandler initState (.many bodies)).2.todos.length = bodies.length ∧
    (postHandler initState (.many bodies)).2.changelog.length = bodies.length ∧
    (postHandler initState (.many bodies)).2.changelog.map (fun e => e.version)
      = intRange bodies.length ∧
    (∀ i (h1 : i < (postHandler initState (.many bodies)).2.changelog.length)
        (h2 : i < (postHandler initState (.many bodies)).2.todos.length),
      (postHandler initState (.many bodies)).2.changelog[i].resourceId
          = (postHandler initState (.many bodies)).2.todos[i].id ∧
      (postHandler initState (.many bodies)).2.changelog[i].isDeleted = false) ∧
    runOps initState (bodies.map (fun b => Op.post (.one b)))
      = (postHandler initState (.many bodies)).2 := by
  have hmany : postHandler initState (.many bodies) = postLoop initState bodies := rfl
  rw [hmany]
  obtain ⟨h1, h2, h3⟩ := postLoop_valid bodies initState h
  have hcan := canonical_postLoop bodies initState canonical_nil
  have hcorr := corrL_postLoop bodies initState corrL_nil
  have h2i : (postLoop initState bodies).2.todos.length = bodies.length := by
    rw [h2]; simp [initState]
  have h3i : (postLoop initState bodies).2.changelog.length = bodies.length := by
    rw [h3]; simp [initState]
  refine ⟨h1, h2i, h3i, ?_, hcorr.2, postLoop_eq_singles bodies initState h⟩
  rw [canonical] at hcan
  rw [hcan, h3i]

/-- Witness for the batch-create claim: two concrete valid bodies produce
status 201, versions [0, 1], and the same state as two single creates. -/
theorem batch_create_spec_witness :
    (∀ b ∈ [bodyA, bodyB], validBody b) ∧
    (postHandler initState (.many [bodyA, bodyB])).1 = 201 ∧
    (postHandler initState (.many [bodyA, bodyB])).2.changelog.map (fun e => e.version)
      = intRange 2 ∧
    runOps initState ([bodyA, bodyB].map (fun b => Op.post (.one b)))
      = (postHandler initState (.many [bodyA, bodyB])).2 := by
  have h := batch_create_spec [bodyA, bodyB] (by decide)
  exact ⟨by decide, h.1, h.2.2.2.1, h.2.2.2.2.2⟩

lemma postLoop_fail (pre : List CreateBody) (s : State) (bad : CreateBody)
    (post : List CreateBody) (hpre : ∀ b ∈ pre, validBody b)
    (hbad : ¬ validBody bad) :
    postLoop s (pre ++ bad :: post) = (400, (postLoop s pre).2) := by
  induction pre generalizing s with
  | nil =>
    rw [List.nil_append, postLoop_cons_invalid s bad post hbad, postLoop_nil]
  | cons b pre ih =>
    have hb : validBody b := hpre b (List.mem_cons_self _ _)
    rw [List.cons_append, postLoop_cons_valid s b (pre ++ bad :: post) hb,
      postLoop_cons_valid s b pre hb]
    exact ih _ (fun x hx => hpre x (List.mem_cons_of_mem _ hx))

/-- Claim C8: when the k-th item of a batch create fails validation, the
request is answered with the error status 400, and the state is exactly the
state reached by committing just the items before the k-th — their todos and
changelog entries remain committed, with no rollback. -/
theorem batch_no_rollback (s : State) (pre : List CreateBody) (bad : CreateBody)
    (post : List CreateBody) (hpre : ∀ b ∈ pre, validBody b)
    (hbad : ¬ validBody bad) :
    (postHandler s (.many (pre ++ bad :: post))).1 = 400 ∧
    (postHandler s (.many (pre ++ bad :: post))).2 = (postHandler s (.many pre)).2 ∧
    (postHandler s (.many pre)).2.todos.length = s.todos.length + pre.length ∧
    (postHandler s (.many pre)).2.changelog.length = s.changelog.length + pre.length := by
  have hm1 : postHandler s (.many (pre ++ bad :: post)) = postLoop s (pre ++ bad :: post) :=
    rfl
  have hm2 : postHandler s (.many pre) = postLoop s pre := rfl
  have hfail := postLoop_fail pre s bad post hpre hbad
  have hlen := postLoop_valid pre s hpre
  rw [hm1, hm2, hfail]
  exact ⟨rfl, rfl, hlen.2.1, hlen.2.2⟩

/-- Witness for the no-rollback claim: a batch of a valid body, an invalid
body (missing title) and another valid body returns 400 and leaves exactly
the first item (and its changelog entry) committed. -/
theorem batch_no_rollback_witness :
    (∀ b ∈ [bodyA], validBody b) ∧ ¬ validBody bodyBad ∧
    (postHandler initState (.many ([bodyA] ++ bodyBad :: [bodyB]))).1 = 400 ∧
    (postHandler initState (.many ([bodyA] ++ bodyBad :: [bodyB]))).2
      = (postHandler initState (.many [bodyA])).2 := by
  have h := batch_no_rollback initState [bodyA] bodyBad [bodyB] (by decide) (by decide)
  exact ⟨by decide, by decide, h.1, h.2.1⟩


end TodoApi
